import Mathlib

/-!
# Verification of `crates/aptos/src/op/key.rs`

A shallow embedding of the key-generation CLI module: the encoding engine
(Hex / BCS / Base64), the overwrite file guard, key persistence, and the
generation orchestrator, together with theorems checking the module's
specification.

Bytes and Unicode code points are modelled as `Nat`; byte strings are
`List Nat`.  Fallible Rust functions returning `Result` become `Except`;
a possible panic (an `unwrap`) is modelled by an outer `Option` where
`none` is the panic.  The file system is an association list from path
strings to file contents, and the interactive prompt is an oracle
`Nat → Bool` indexed by the number of prompts asked so far.
-/

namespace KeyOp

/-- `EncodingType` from `common::types`: the three supported encodings. -/
inductive EncodingType where
  | Hex
  | BCS
  | Base64
deriving DecidableEq, Repr

/-- `KeyType` from `common::types`: which key family to generate. -/
inductive KeyType where
  | Ed25519
  | X25519
deriving DecidableEq, Repr

/-- The `Error` enum from `common::types`, restricted to the variants this
module constructs.  Payload details (`io::Error`, crypto errors, BCS errors)
are carried as plain strings. -/
inductive Error where
  | AbortedError
  | IOErr (key_name : String) (detail : String)
  | BCSErr (key_name : String) (detail : String)
  | UnableToParse (context : String) (detail : String)
  | UnableToReadFile (path : String) (detail : String)
  | UnexpectedError (detail : String)
deriving DecidableEq, Repr

instance {ε α : Type} [DecidableEq ε] [DecidableEq α] :
    DecidableEq (Except ε α) := fun x y =>
  match x, y with
  | .ok a, .ok b =>
    if h : a = b then isTrue (by rw [h])
    else isFalse (fun hc => h (Except.ok.inj hc))
  | .error a, .error b =>
    if h : a = b then isTrue (by rw [h])
    else isFalse (fun hc => h (Except.error.inj hc))
  | .ok _, .error _ => isFalse (fun hc => Except.noConfusion hc)
  | .error _, .ok _ => isFalse (fun hc => Except.noConfusion hc)

/-- A key's raw byte material (`ValidCryptoMaterial::to_bytes`).  Both
Ed25519 and X25519 private and public keys are 32 bytes. -/
def keyLen : Nat := 32

/-- A valid key byte string: the expected length, every element a byte. -/
def ValidKey (len : Nat) (k : List Nat) : Prop :=
  k.length = len ∧ ∀ b ∈ k, b < 256

instance (len : Nat) (k : List Nat) : Decidable (ValidKey len k) := by
  unfold ValidKey; infer_instance

/-! ## Hex encoding (the `hex` crate: `encode_upper` / `decode`) -/

/-- Upper-case hex digit for a value below 16: `0`–`9` then `A`–`F`. -/
def hexDigitUpper (d : Nat) : Nat :=
  if d < 10 then 48 + d else 55 + d

/-- `hex::encode_upper`: each byte becomes two upper-case hex ASCII chars. -/
def hexEncodeUpper (bs : List Nat) : List Nat :=
  bs.flatMap fun b => [hexDigitUpper (b / 16), hexDigitUpper (b % 16)]

/-- Value of one hex digit char, accepting both cases (`hex::decode` does). -/
def hexVal (c : Nat) : Option Nat :=
  if 48 ≤ c ∧ c ≤ 57 then some (c - 48)
  else if 65 ≤ c ∧ c ≤ 70 then some (c - 55)
  else if 97 ≤ c ∧ c ≤ 102 then some (c - 87)
  else none

/-- `hex::decode`: pairs of hex digits back to bytes; fails on an odd
length or a non-hex character. -/
def hexDecode : List Nat → Option (List Nat)
  | [] => some []
  | c1 :: c2 :: rest =>
    match hexVal c1, hexVal c2, hexDecode rest with
    | some h, some l, some bs => some ((h * 16 + l) :: bs)
    | _, _, _ => none
  | _ => none

/-! ## Base64 (the `base64` crate, standard alphabet with padding) -/

/-- Standard Base64 alphabet char for a 6-bit value. -/
def b64Chr (v : Nat) : Nat :=
  if v < 26 then 65 + v
  else if v < 52 then 97 + (v - 26)
  else if v < 62 then 48 + (v - 52)
  else if v = 62 then 43
  else 47

/-- Inverse of the standard Base64 alphabet; `none` off the alphabet. -/
def b64Val (c : Nat) : Option Nat :=
  if 65 ≤ c ∧ c ≤ 90 then some (c - 65)
  else if 97 ≤ c ∧ c ≤ 122 then some (c - 71)
  else if 48 ≤ c ∧ c ≤ 57 then some (c + 4)
  else if c = 43 then some 62
  else if c = 47 then some 63
  else none

/-- `base64::encode`: groups of three bytes to four chars, the final short
group padded with `=`. -/
def base64Encode : List Nat → List Nat
  | [] => []
  | [b1] =>
    [b64Chr (b1 / 4), b64Chr (b1 % 4 * 16), 61, 61]
  | [b1, b2] =>
    [b64Chr (b1 / 4), b64Chr (b1 % 4 * 16 + b2 / 16), b64Chr (b2 % 16 * 4), 61]
  | b1 :: b2 :: b3 :: rest =>
    b64Chr (b1 / 4) :: b64Chr (b1 % 4 * 16 + b2 / 16) ::
      b64Chr (b2 % 16 * 4 + b3 / 64) :: b64Chr (b3 % 64) :: base64Encode rest

/-- Strip the optional trailing `=` padding (at most two chars) before
decoding; a `=` anywhere else is rejected later since it is off the
alphabet. -/
def stripPad (s : List Nat) : List Nat :=
  let r := s.reverse
  if r.take 2 = [61, 61] then (r.drop 2).reverse
  else if r.take 1 = [61] then (r.drop 1).reverse
  else s

/-- Decode the de-padded Base64 text: four-char groups, a final short
group of two or three chars, non-zero trailing bits rejected. -/
def b64Core : List Nat → Option (List Nat)
  | [] => some []
  | [c1, c2] =>
    match b64Val c1, b64Val c2 with
    | some v1, some v2 =>
      if v2 % 16 = 0 then some [v1 * 4 + v2 / 16] else none
    | _, _ => none
  | [c1, c2, c3] =>
    match b64Val c1, b64Val c2, b64Val c3 with
    | some v1, some v2, some v3 =>
      if v3 % 4 = 0 then some [v1 * 4 + v2 / 16, v2 % 16 * 16 + v3 / 4] else none
    | _, _, _ => none
  | c1 :: c2 :: c3 :: c4 :: rest =>
    match b64Val c1, b64Val c2, b64Val c3, b64Val c4, b64Core rest with
    | some v1, some v2, some v3, some v4, some bs =>
      some ((v1 * 4 + v2 / 16) :: (v2 % 16 * 16 + v3 / 4) :: (v3 % 4 * 64 + v4) :: bs)
    | _, _, _, _, _ => none
  | _ => none

/-- `base64::decode` (standard config): optional `=` padding on the final
group, groups of four chars otherwise. -/
def base64Decode (s : List Nat) : Option (List Nat) :=
  b64Core (stripPad s)

/-! ## BCS serialization of key material

`bcs::to_bytes` / `bcs::from_bytes` on an `aptos_crypto` key value: the key
serializes through `serde_bytes` as a ULEB128 length followed by the raw
bytes, and deserialization reads those back, requires the whole input
consumed, and runs the key type's length-checked `TryFrom`. -/

/-- ULEB128 encoding of a natural number. -/
def ulebEncode (n : Nat) : List Nat :=
  if h : n < 128 then [n]
  else (n % 128 + 128) :: ulebEncode (n / 128)
decreasing_by
  exact Nat.div_lt_self (by omega) (by omega)

/-- ULEB128 decoding: returns the value and the remaining input. -/
def ulebDecode : List Nat → Option (Nat × List Nat)
  | [] => none
  | b :: rest =>
    if b < 128 then some (b, rest)
    else
      match ulebDecode rest with
      | some (n, rem) => some (n * 128 + (b - 128), rem)
      | none => none

/-- `Key::try_from(&[u8])` for a fixed-length key type: accepts exactly
`len` bytes. -/
def tryFromBytes (len : Nat) (bs : List Nat) : Except String (List Nat) :=
  if bs.length = len then .ok bs else .error "WrongLengthError"

/-- `bcs::to_bytes` on a key: ULEB128 length then the raw key bytes.
For key material this serialization never fails. -/
def bcsSerKey (k : List Nat) : Except String (List Nat) :=
  .ok (ulebEncode k.length ++ k)

/-- `bcs::from_bytes` on a key type of expected length `len`. -/
def bcsDeserKey (len : Nat) (data : List Nat) : Except String (List Nat) :=
  match ulebDecode data with
  | none => .error "malformed length"
  | some (n, rest) =>
    if n ≤ rest.length then
      if rest.drop n = [] then tryFromBytes len (rest.take n)
      else .error "RemainingInput"
    else .error "unexpected end of input"

/-! ## UTF-8 and whitespace (`String::from_utf8`, `str::trim`) -/

/-- Byte-at-a-time UTF-8 validation and decoding (the table-driven
algorithm `String::from_utf8` implements).  The state is the number of
continuation bytes still expected, the partial code point, and the
admissible range for the next byte (the first continuation byte's range
depends on the lead byte; later ones are always 128–191). -/
def utf8Aux : List Nat → Nat → Nat → Nat → Nat → Option (List Nat)
  | [], need, _, _, _ => if need = 0 then some [] else none
  | b :: rest, 0, _, _, _ =>
    if b < 128 then (utf8Aux rest 0 0 0 0).map (b :: ·)
    else if 194 ≤ b ∧ b ≤ 223 then
      utf8Aux rest 1 (b - 192) 128 191
    else if 224 ≤ b ∧ b ≤ 239 then
      utf8Aux rest 2 (b - 224) (if b = 224 then 160 else 128)
        (if b = 237 then 159 else 191)
    else if 240 ≤ b ∧ b ≤ 244 then
      utf8Aux rest 3 (b - 240) (if b = 240 then 144 else 128)
        (if b = 244 then 143 else 191)
    else none
  | b :: rest, need + 1, acc, lo, hi =>
    if lo ≤ b ∧ b ≤ hi then
      if need = 0 then (utf8Aux rest 0 0 0 0).map ((acc * 64 + (b - 128)) :: ·)
      else utf8Aux rest need (acc * 64 + (b - 128)) 128 191
    else none

/-- `String::from_utf8` as a decoder to Unicode code points; `none` models
the `Err` that the source `unwrap`s (a panic). -/
def utf8Decode (l : List Nat) : Option (List Nat) :=
  utf8Aux l 0 0 0 0

/-- Unicode `White_Space` code points, as used by Rust's `str::trim`. -/
def isWs (c : Nat) : Bool :=
  (9 ≤ c ∧ c ≤ 13) ∨ c = 32 ∨ c = 133 ∨ c = 160 ∨ c = 5760 ∨
    (8192 ≤ c ∧ c ≤ 8202) ∨ c = 8232 ∨ c = 8233 ∨ c = 8239 ∨ c = 8287 ∨
    c = 12288

/-- `str::trim`: strip whitespace from both ends. -/
def strTrim (s : List Nat) : List Nat :=
  ((s.dropWhile isWs).reverse.dropWhile isWs).reverse

/-! ## `encode_key` and the decoding step of `load_key` -/

/-- `encode_key` (key.rs:149-161).  The key's `to_bytes` is its byte list;
the external BCS serializer is passed as `bcsSer` (instantiated with
`bcsSerKey` for the actual key types).  Hex and Base64 branches produce the
encoded text's bytes; the BCS branch maps a serializer error to
`Error::BCS(key_name, err)`. -/
def encode_key (bcsSer : List Nat → Except String (List Nat))
    (encoding : EncodingType) (key : List Nat) (key_name : String) :
    Except Error (List Nat) :=
  match encoding with
  | .Hex => .ok (hexEncodeUpper key)
  | .BCS =>
    match bcsSer key with
    | .ok out => .ok out
    | .error err => .error (.BCSErr key_name err)
  | .Base64 => .ok (base64Encode key)

/-- `ValidCryptoMaterialStringExt::from_encoded_string` for a key type of
expected byte length `len`: hex-decode the string, then the key type's
length-checked `TryFrom`. -/
def from_encoded_string (len : Nat) (s : List Nat) : Except String (List Nat) :=
  match hexDecode s with
  | none => .error "DeserializationError"
  | some bs => tryFromBytes len bs

/-- The pure decoding step of `load_key` (key.rs:197-213), applied to the
bytes read from the file.  The outer `Option` models the
`String::from_utf8(data).unwrap()` panics: `none` is a panic. -/
def decode_key (len : Nat) (encoding : EncodingType) (data : List Nat) :
    Option (Except Error (List Nat)) :=
  match encoding with
  | .BCS =>
    some (match bcsDeserKey len data with
          | .ok k => .ok k
          | .error err => .error (.BCSErr "Key" err))
  | .Hex =>
    match utf8Decode data with
    | none => none
    | some s =>
      some (match from_encoded_string len (strTrim s) with
            | .ok k => .ok k
            | .error err => .error (.UnableToParse "Key" err))
  | .Base64 =>
    match utf8Decode data with
    | none => none
    | some s =>
      some (match base64Decode (strTrim s) with
            | none => .error (.UnableToParse "Key" "InvalidByte")
            | some bs =>
              match tryFromBytes len bs with
              | .ok k => .ok k
              | .error err =>
                .error (.UnexpectedError ("Failed to parse key " ++ err)))

/-! ## File system, prompt and the stateful operations -/

/-- The file system visible to this module: an association list from path
strings to file contents. -/
abbrev FSys := List (String × List Nat)

/-- Look up a file's contents. -/
def fsRead (fs : FSys) (path : String) : Option (List Nat) :=
  match fs with
  | [] => none
  | (p, c) :: rest => if p = path then some c else fsRead rest path

/-- `Path::exists`. -/
def fsExists (fs : FSys) (path : String) : Bool :=
  (fsRead fs path).isSome

/-- Create-or-truncate a file with the given contents (`File::create` +
`write_all`, the success path). -/
def fsWrite (fs : FSys) (path : String) (content : List Nat) : FSys :=
  match fs with
  | [] => [(path, content)]
  | (p, c) :: rest =>
    if p = path then (p, content) :: rest else (p, c) :: fsWrite rest path content

/-- The world state threaded through the stateful operations: the file
system plus the number of interactive prompts asked so far.  Prompt
answers come from an external oracle `Nat → Bool` indexed by
`promptCount`, and paths where `File::create`/`write_all` fail are
collected in `failPaths`. -/
structure World where
  fs : FSys
  promptCount : Nat
deriving DecidableEq, Repr

/-- `load_key` (key.rs:189-214): read the file, then decode.  `none` is a
panic inside the decode step. -/
def load_key (len : Nat) (path : String) (encoding : EncodingType)
    (w : World) : Option (Except Error (List Nat)) :=
  match fsRead w.fs path with
  | none => some (.error (.UnableToReadFile path "No such file"))
  | some data => decode_key len encoding data

/-- `write_to_file` (key.rs:164-168): any I/O failure (modelled by membership
in `failPaths`) becomes `Error::IO(key_name, e)` and leaves the file system
unchanged; otherwise the file is created or truncated. -/
def write_to_file (failPaths : List String) (key_file : String)
    (key_name : String) (encoded_key : List Nat) (fs : FSys) :
    Except Error FSys :=
  if key_file ∈ failPaths then .error (.IOErr key_name "io error")
  else .ok (fsWrite fs key_file encoded_key)

/-- `check_if_file_exists` (key.rs:171-186).  The source is
`if file.exists() && !assume_yes && !prompt_yes(..) { Err(AbortedError) }
else { Ok(()) }`; `&&` short-circuits, so the prompt is consulted (and
`promptCount` advances) exactly when the file exists and `assume_yes` is
false. -/
def check_if_file_exists (answers : Nat → Bool) (file : String)
    (assume_yes : Bool) (w : World) : Except Error Unit × World :=
  if fsExists w.fs file ∧ ¬assume_yes then
    let ans := answers w.promptCount
    let w' : World := { w with promptCount := w.promptCount + 1 }
    if ¬ans then (.error .AbortedError, w') else (.ok (), w')
  else (.ok (), w)

/-- Modelled from the spec: `append_file_extension` (from `common::utils`,
outside this file) forms "a derived path formed by appending a fixed
suffix (\".pub\") to the primary path"; modelled as string append of the
suffix, never failing. -/
def append_file_extension (path : String) (ext : String) : String :=
  path ++ ext

/-- `SaveKey::public_key_file` (key.rs:121-123). -/
def public_key_file (key_file : String) : String :=
  append_file_extension key_file ".pub"

/-- `SaveKey::check_key_file` (key.rs:126-130): guard the primary path,
then the derived `.pub` path. -/
def check_key_file (answers : Nat → Bool) (key_file : String)
    (assume_yes : Bool) (w : World) : Except Error Unit × World :=
  match check_if_file_exists answers key_file assume_yes w with
  | (.error e, w') => (.error e, w')
  | (.ok _, w') => check_if_file_exists answers (public_key_file key_file) assume_yes w'

/-- `SaveKey::save_key` (key.rs:133-145).  `pubOf` is the external
public-key derivation (`key.public_key()`); both keys are encoded with the
same encoding, then the private key is written to the primary path and the
public key to the derived path. -/
def save_key (failPaths : List String) (pubOf : List Nat → List Nat)
    (key_file : String) (encoding : EncodingType) (key : List Nat)
    (key_name : String) (w : World) : Except Error Unit × World :=
  match encode_key bcsSerKey encoding key key_name with
  | .error e => (.error e, w)
  | .ok encoded_private_key =>
    match encode_key bcsSerKey encoding (pubOf key) key_name with
    | .error e => (.error e, w)
    | .ok encoded_public_key =>
      match write_to_file failPaths key_file key_name encoded_private_key w.fs with
      | .error e => (.error e, w)
      | .ok fs1 =>
        match write_to_file failPaths (public_key_file key_file) key_name
            encoded_public_key fs1 with
        | .error e => (.error e, { w with fs := fs1 })
        | .ok fs2 => (.ok (), { w with fs := fs2 })

/-- `GenerateKey::execute` (key.rs:50-67).  `ed25519_key` is the fresh
Ed25519 private key drawn from system entropy (an external collaborator),
and `conv` is the external `x25519::PrivateKey::from_ed25519_private_bytes`
conversion.  The guard runs first; then for X25519 the saved key is the
conversion of the Ed25519 seed bytes (a conversion error surfacing as
`UnexpectedError`), while for Ed25519 the seed is saved directly. -/
def GenerateKey.execute (answers : Nat → Bool) (failPaths : List String)
    (conv : List Nat → Except String (List Nat))
    (pubOf : List Nat → List Nat) (key_type : KeyType) (key_file : String)
    (encoding : EncodingType) (assume_yes : Bool) (ed25519_key : List Nat)
    (w : World) : Except Error Unit × World :=
  match check_key_file answers key_file assume_yes w with
  | (.error e, w') => (.error e, w')
  | (.ok _, w') =>
    match key_type with
    | .X25519 =>
      match conv ed25519_key with
      | .error err => (.error (.UnexpectedError err), w')
      | .ok private_key =>
        save_key failPaths pubOf key_file encoding private_key "x22519" w'
    | .Ed25519 =>
      save_key failPaths pubOf key_file encoding ed25519_key "ed22519" w'

/-! ## Character-level facts -/

theorem hexVal_hexDigitUpper : ∀ d < 16, hexVal (hexDigitUpper d) = some d := by
  decide

theorem hexDigitUpper_facts :
    ∀ d < 16, hexDigitUpper d < 128 ∧ isWs (hexDigitUpper d) = false ∧
      hexDigitUpper d ≠ 61 ∧ (b64Val (hexDigitUpper d)).isSome = true ∧
      ((48 ≤ hexDigitUpper d ∧ hexDigitUpper d ≤ 57) ∨
        (65 ≤ hexDigitUpper d ∧ hexDigitUpper d ≤ 70)) := by
  decide

theorem b64Val_b64Chr : ∀ v < 64, b64Val (b64Chr v) = some v := by
  decide

theorem b64Chr_facts :
    ∀ v < 64, b64Chr v < 128 ∧ isWs (b64Chr v) = false ∧ b64Chr v ≠ 61 := by
  decide

/-! ## Hex lemmas -/

theorem hexEncodeUpper_cons (b : Nat) (bs : List Nat) :
    hexEncodeUpper (b :: bs) =
      hexDigitUpper (b / 16) :: hexDigitUpper (b % 16) :: hexEncodeUpper bs := rfl

theorem hexDecode_hexEncodeUpper {bs : List Nat} (h : ∀ b ∈ bs, b < 256) :
    hexDecode (hexEncodeUpper bs) = some bs := by
  induction bs with
  | nil => rfl
  | cons b bs ih =>
    have hb : b < 256 := h b (List.mem_cons_self b bs)
    rw [hexEncodeUpper_cons, hexDecode,
      hexVal_hexDigitUpper (b / 16) (by omega),
      hexVal_hexDigitUpper (b % 16) (by omega),
      ih (fun x hx => h x (List.mem_cons_of_mem b hx))]
    show some ((b / 16 * 16 + b % 16) :: bs) = some (b :: bs)
    have : b / 16 * 16 + b % 16 = b := by omega
    rw [this]

theorem hexEncodeUpper_length (bs : List Nat) :
    (hexEncodeUpper bs).length = 2 * bs.length := by
  induction bs with
  | nil => rfl
  | cons b bs ih => rw [hexEncodeUpper_cons]; simp [ih]; omega

theorem mem_hexEncodeUpper {c : Nat} {bs : List Nat} (h : ∀ b ∈ bs, b < 256)
    (hc : c ∈ hexEncodeUpper bs) : ∃ d, d < 16 ∧ c = hexDigitUpper d := by
  unfold hexEncodeUpper at hc
  rw [List.mem_flatMap] at hc
  obtain ⟨b, hb, hcb⟩ := hc
  have hb256 : b < 256 := h b hb
  simp only [List.mem_cons, List.not_mem_nil, or_false] at hcb
  rcases hcb with h1 | h2
  · exact ⟨b / 16, by omega, h1⟩
  · exact ⟨b % 16, by omega, h2⟩

/-! ## UTF-8 lemmas -/

theorem utf8Decode_ascii {bs : List Nat} (h : ∀ b ∈ bs, b < 128) :
    utf8Decode bs = some bs := by
  induction bs with
  | nil => rfl
  | cons b rest ih =>
    have hb : b < 128 := h b (List.mem_cons_self b rest)
    unfold utf8Decode utf8Aux
    rw [if_pos hb]
    unfold utf8Decode at ih
    rw [ih (fun x hx => h x (List.mem_cons_of_mem b hx))]
    rfl

/-! ## Trim lemmas -/

theorem dropWhile_all_false {l : List Nat} (h : ∀ c ∈ l, isWs c = false) :
    l.dropWhile isWs = l := by
  cases l with
  | nil => rfl
  | cons a t => rw [List.dropWhile_cons, h a (List.mem_cons_self a t)]; simp

theorem strTrim_all_false {s : List Nat} (h : ∀ c ∈ s, isWs c = false) :
    strTrim s = s := by
  unfold strTrim
  rw [dropWhile_all_false h,
    dropWhile_all_false (fun c hc => h c (List.mem_reverse.mp hc)), List.reverse_reverse]

theorem dropWhile_append_all_true {l1 l2 : List Nat}
    (h : ∀ c ∈ l1, isWs c = true) :
    (l1 ++ l2).dropWhile isWs = l2.dropWhile isWs := by
  induction l1 with
  | nil => rfl
  | cons a t ih =>
    rw [List.cons_append, List.dropWhile_cons, h a (List.mem_cons_self a t)]
    exact ih (fun c hc => h c (List.mem_cons_of_mem a hc))

theorem strTrim_surround {ws1 s ws2 : List Nat}
    (h1 : ∀ c ∈ ws1, isWs c = true) (h2 : ∀ c ∈ ws2, isWs c = true)
    (hs : ∀ c ∈ s, isWs c = false) (hne : s ≠ []) :
    strTrim (ws1 ++ s ++ ws2) = s := by
  unfold strTrim
  rw [List.append_assoc, dropWhile_append_all_true h1]
  cases s with
  | nil => exact absurd rfl hne
  | cons a t =>
    rw [List.cons_append, List.dropWhile_cons, hs a (List.mem_cons_self a t)]
    simp only [Bool.false_eq_true, if_false]
    rw [← List.cons_append, List.reverse_append,
      dropWhile_append_all_true (fun c hc => h2 c (List.mem_reverse.mp hc)),
      dropWhile_all_false (fun c hc => hs c (List.mem_reverse.mp hc)),
      List.reverse_reverse]

/-! ## Base64 lemmas -/

theorem stripPad_no_pad {cs : List Nat} (h : ∀ c ∈ cs, c ≠ 61) :
    stripPad cs = cs := by
  unfold stripPad
  have h2 : ¬cs.reverse.take 2 = [61, 61] := by
    intro hc
    have : 61 ∈ cs.reverse.take 2 := by rw [hc]; simp
    exact h 61 (List.mem_reverse.mp (List.take_subset 2 cs.reverse this)) rfl
  have h1 : ¬cs.reverse.take 1 = [61] := by
    intro hc
    have : 61 ∈ cs.reverse.take 1 := by rw [hc]; simp
    exact h 61 (List.mem_reverse.mp (List.take_subset 1 cs.reverse this)) rfl
  simp [h1, h2]

theorem stripPad_append {l1 l2 : List Nat} (h : 2 ≤ l2.length) :
    stripPad (l1 ++ l2) = l1 ++ stripPad l2 := by
  have hlen : 2 ≤ l2.reverse.length := by simp [h]
  unfold stripPad
  simp only [List.reverse_append]
  rw [List.take_append_of_le_length hlen,
    List.take_append_of_le_length (by omega : 1 ≤ l2.reverse.length),
    List.drop_append_of_le_length hlen,
    List.drop_append_of_le_length (by omega : 1 ≤ l2.reverse.length)]
  split_ifs <;> simp

theorem base64Encode_length_ge {bs : List Nat} (h : bs ≠ []) :
    4 ≤ (base64Encode bs).length := by
  match bs with
  | [] => exact absurd rfl h
  | [b1] => simp [base64Encode]
  | [b1, b2] => simp [base64Encode]
  | b1 :: b2 :: b3 :: rest => simp [base64Encode]

theorem b64Core_two {c1 c2 v1 v2 : Nat} (h1 : b64Val c1 = some v1)
    (h2 : b64Val c2 = some v2) (hz : v2 % 16 = 0) :
    b64Core [c1, c2] = some [v1 * 4 + v2 / 16] := by
  unfold b64Core
  rw [h1, h2]
  simp [hz]

theorem b64Core_three {c1 c2 c3 v1 v2 v3 : Nat} (h1 : b64Val c1 = some v1)
    (h2 : b64Val c2 = some v2) (h3 : b64Val c3 = some v3) (hz : v3 % 4 = 0) :
    b64Core [c1, c2, c3] = some [v1 * 4 + v2 / 16, v2 % 16 * 16 + v3 / 4] := by
  unfold b64Core
  rw [h1, h2, h3]
  simp [hz]

theorem b64Core_quad {c1 c2 c3 c4 v1 v2 v3 v4 : Nat} {rest bs : List Nat}
    (h1 : b64Val c1 = some v1) (h2 : b64Val c2 = some v2)
    (h3 : b64Val c3 = some v3) (h4 : b64Val c4 = some v4)
    (hrest : b64Core rest = some bs) :
    b64Core (c1 :: c2 :: c3 :: c4 :: rest) =
      some ((v1 * 4 + v2 / 16) :: (v2 % 16 * 16 + v3 / 4) :: (v3 % 4 * 64 + v4) :: bs) := by
  unfold b64Core
  rw [h1, h2, h3, h4, hrest]

theorem base64Decode_base64Encode {bs : List Nat} (h : ∀ b ∈ bs, b < 256) :
    base64Decode (base64Encode bs) = some bs := by
  unfold base64Decode
  induction bs using base64Encode.induct with
  | case1 => rfl
  | case2 b1 =>
    have hb : b1 < 256 := h b1 (by simp)
    have e1 : b64Val (b64Chr (b1 / 4)) = some (b1 / 4) := b64Val_b64Chr _ (by omega)
    have e2 : b64Val (b64Chr (b1 % 4 * 16)) = some (b1 % 4 * 16) :=
      b64Val_b64Chr _ (by omega)
    show b64Core (stripPad [b64Chr (b1 / 4), b64Chr (b1 % 4 * 16), 61, 61]) = _
    have hsp : stripPad [b64Chr (b1 / 4), b64Chr (b1 % 4 * 16), 61, 61] =
        [b64Chr (b1 / 4), b64Chr (b1 % 4 * 16)] := by
      unfold stripPad; simp
    rw [hsp, b64Core_two e1 e2 (by omega)]
    congr 1
    have : b1 / 4 * 4 + b1 % 4 * 16 / 16 = b1 := by omega
    rw [this]
  | case3 b1 b2 =>
    have hb1 : b1 < 256 := h b1 (by simp)
    have hb2 : b2 < 256 := h b2 (by simp)
    have e1 : b64Val (b64Chr (b1 / 4)) = some (b1 / 4) := b64Val_b64Chr _ (by omega)
    have e2 : b64Val (b64Chr (b1 % 4 * 16 + b2 / 16)) = some (b1 % 4 * 16 + b2 / 16) :=
      b64Val_b64Chr _ (by omega)
    have e3 : b64Val (b64Chr (b2 % 16 * 4)) = some (b2 % 16 * 4) :=
      b64Val_b64Chr _ (by omega)
    show b64Core (stripPad [b64Chr (b1 / 4), b64Chr (b1 % 4 * 16 + b2 / 16),
      b64Chr (b2 % 16 * 4), 61]) = _
    have hsp : stripPad [b64Chr (b1 / 4), b64Chr (b1 % 4 * 16 + b2 / 16),
        b64Chr (b2 % 16 * 4), 61] =
        [b64Chr (b1 / 4), b64Chr (b1 % 4 * 16 + b2 / 16), b64Chr (b2 % 16 * 4)] := by
      have hne : b64Chr (b2 % 16 * 4) ≠ 61 := (b64Chr_facts _ (by omega)).2.2
      unfold stripPad
      simp [hne]
    rw [hsp, b64Core_three e1 e2 e3 (by omega)]
    congr 1
    have r1 : b1 / 4 * 4 + (b1 % 4 * 16 + b2 / 16) / 16 = b1 := by omega
    have r2 : (b1 % 4 * 16 + b2 / 16) % 16 * 16 + b2 % 16 * 4 / 4 = b2 := by omega
    rw [r1, r2]
  | case4 b1 b2 b3 rest ih =>
    have hb1 : b1 < 256 := h b1 (by simp)
    have hb2 : b2 < 256 := h b2 (by simp)
    have hb3 : b3 < 256 := h b3 (by simp)
    have hrest : ∀ b ∈ rest, b < 256 := fun b hb => h b (by simp [hb])
    have e1 : b64Val (b64Chr (b1 / 4)) = some (b1 / 4) := b64Val_b64Chr _ (by omega)
    have e2 : b64Val (b64Chr (b1 % 4 * 16 + b2 / 16)) = some (b1 % 4 * 16 + b2 / 16) :=
      b64Val_b64Chr _ (by omega)
    have e3 : b64Val (b64Chr (b2 % 16 * 4 + b3 / 64)) = some (b2 % 16 * 4 + b3 / 64) :=
      b64Val_b64Chr _ (by omega)
    have e4 : b64Val (b64Chr (b3 % 64)) = some (b3 % 64) := b64Val_b64Chr _ (by omega)
    have r1 : b1 / 4 * 4 + (b1 % 4 * 16 + b2 / 16) / 16 = b1 := by omega
    have r2 : (b1 % 4 * 16 + b2 / 16) % 16 * 16 + (b2 % 16 * 4 + b3 / 64) / 4 = b2 := by
      omega
    have r3 : (b2 % 16 * 4 + b3 / 64) % 4 * 64 + b3 % 64 = b3 := by omega
    show b64Core (stripPad (b64Chr (b1 / 4) :: b64Chr (b1 % 4 * 16 + b2 / 16) ::
      b64Chr (b2 % 16 * 4 + b3 / 64) :: b64Chr (b3 % 64) :: base64Encode rest)) = _
    by_cases hre : rest = []
    · subst hre
      have hsp : stripPad [b64Chr (b1 / 4), b64Chr (b1 % 4 * 16 + b2 / 16),
          b64Chr (b2 % 16 * 4 + b3 / 64), b64Chr (b3 % 64)] =
          [b64Chr (b1 / 4), b64Chr (b1 % 4 * 16 + b2 / 16),
            b64Chr (b2 % 16 * 4 + b3 / 64), b64Chr (b3 % 64)] := by
        apply stripPad_no_pad
        intro c hc
        simp only [List.mem_cons, List.not_mem_nil, or_false] at hc
        rcases hc with rfl | rfl | rfl | rfl
        · exact (b64Chr_facts _ (by omega)).2.2
        · exact (b64Chr_facts _ (by omega)).2.2
        · exact (b64Chr_facts _ (by omega)).2.2
        · exact (b64Chr_facts _ (by omega)).2.2
      show b64Core (stripPad [b64Chr (b1 / 4), b64Chr (b1 % 4 * 16 + b2 / 16),
        b64Chr (b2 % 16 * 4 + b3 / 64), b64Chr (b3 % 64)]) = _
      rw [hsp, b64Core_quad e1 e2 e3 e4 (by rfl : b64Core [] = some []),
        r1, r2, r3]
    · have hlen : 2 ≤ (base64Encode rest).length := by
        have := base64Encode_length_ge hre
        omega
      have hsplit : b64Chr (b1 / 4) :: b64Chr (b1 % 4 * 16 + b2 / 16) ::
          b64Chr (b2 % 16 * 4 + b3 / 64) :: b64Chr (b3 % 64) :: base64Encode rest =
          [b64Chr (b1 / 4), b64Chr (b1 % 4 * 16 + b2 / 16),
            b64Chr (b2 % 16 * 4 + b3 / 64), b64Chr (b3 % 64)] ++ base64Encode rest := by
        simp
      rw [hsplit, stripPad_append hlen, List.cons_append, List.cons_append,
        List.cons_append, List.cons_append, List.nil_append,
        b64Core_quad e1 e2 e3 e4 (ih hrest), r1, r2, r3]

theorem mem_base64Encode {bs : List Nat} (h : ∀ b ∈ bs, b < 256) :
    ∀ c ∈ base64Encode bs, c < 128 ∧ isWs c = false := by
  induction bs using base64Encode.induct with
  | case1 => intro c hc; cases hc
  | case2 b1 =>
    have hb : b1 < 256 := h b1 (by simp)
    intro c hc
    simp only [base64Encode, List.mem_cons, List.not_mem_nil, or_false] at hc
    rcases hc with rfl | rfl | rfl | rfl
    · exact ⟨(b64Chr_facts _ (by omega)).1, (b64Chr_facts _ (by omega)).2.1⟩
    · exact ⟨(b64Chr_facts _ (by omega)).1, (b64Chr_facts _ (by omega)).2.1⟩
    · exact ⟨by omega, by decide⟩
    · exact ⟨by omega, by decide⟩
  | case3 b1 b2 =>
    have hb1 : b1 < 256 := h b1 (by simp)
    have hb2 : b2 < 256 := h b2 (by simp)
    intro c hc
    simp only [base64Encode, List.mem_cons, List.not_mem_nil, or_false] at hc
    rcases hc with rfl | rfl | rfl | rfl
    · exact ⟨(b64Chr_facts _ (by omega)).1, (b64Chr_facts _ (by omega)).2.1⟩
    · exact ⟨(b64Chr_facts _ (by omega)).1, (b64Chr_facts _ (by omega)).2.1⟩
    · exact ⟨(b64Chr_facts _ (by omega)).1, (b64Chr_facts _ (by omega)).2.1⟩
    · exact ⟨by omega, by decide⟩
  | case4 b1 b2 b3 rest ih =>
    have hb1 : b1 < 256 := h b1 (by simp)
    have hb2 : b2 < 256 := h b2 (by simp)
    have hb3 : b3 < 256 := h b3 (by simp)
    have hrest : ∀ b ∈ rest, b < 256 := fun b hb => h b (by simp [hb])
    intro c hc
    simp only [base64Encode, List.mem_cons] at hc
    rcases hc with rfl | rfl | rfl | rfl | hmem
    · exact ⟨(b64Chr_facts _ (by omega)).1, (b64Chr_facts _ (by omega)).2.1⟩
    · exact ⟨(b64Chr_facts _ (by omega)).1, (b64Chr_facts _ (by omega)).2.1⟩
    · exact ⟨(b64Chr_facts _ (by omega)).1, (b64Chr_facts _ (by omega)).2.1⟩
    · exact ⟨(b64Chr_facts _ (by omega)).1, (b64Chr_facts _ (by omega)).2.1⟩
    · exact ih hrest c hmem

theorem b64Val_ne_pad {c v : Nat} (h : b64Val c = some v) : c ≠ 61 := by
  intro hc
  subst hc
  simp [b64Val] at h

theorem b64Core_all_valid_aux : ∀ (n : Nat) (cs : List Nat), cs.length = n →
    (∀ c ∈ cs, (b64Val c).isSome = true) → cs.length % 4 = 0 →
    ∃ bs, b64Core cs = some bs ∧ bs.length = 3 * (cs.length / 4) := by
  intro n
  induction n using Nat.strong_induction_on with
  | _ n ihn =>
    intro cs hn h hlen
    match cs with
    | [] => exact ⟨[], rfl, by simp⟩
    | [c] => simp at hlen
    | [c1, c2] => simp at hlen
    | [c1, c2, c3] => simp at hlen
    | c1 :: c2 :: c3 :: c4 :: rest =>
      obtain ⟨v1, e1⟩ := Option.isSome_iff_exists.mp (h c1 (by simp))
      obtain ⟨v2, e2⟩ := Option.isSome_iff_exists.mp (h c2 (by simp))
      obtain ⟨v3, e3⟩ := Option.isSome_iff_exists.mp (h c3 (by simp))
      obtain ⟨v4, e4⟩ := Option.isSome_iff_exists.mp (h c4 (by simp))
      have hrest : ∀ c ∈ rest, (b64Val c).isSome = true :=
        fun c hc => h c (by simp [hc])
      have hrlen : rest.length % 4 = 0 := by
        simp only [List.length_cons] at hlen
        omega
      have hrn : rest.length < n := by
        subst hn
        simp only [List.length_cons]
        omega
      obtain ⟨bs, hbs, hbslen⟩ := ihn rest.length hrn rest rfl hrest hrlen
      refine ⟨_, b64Core_quad e1 e2 e3 e4 hbs, ?_⟩
      simp only [List.length_cons, hbslen]
      omega

theorem b64Core_all_valid {cs : List Nat}
    (h : ∀ c ∈ cs, (b64Val c).isSome = true) (hlen : cs.length % 4 = 0) :
    ∃ bs, b64Core cs = some bs ∧ bs.length = 3 * (cs.length / 4) :=
  b64Core_all_valid_aux cs.length cs rfl h hlen

/-! ## ULEB128 / BCS lemmas -/

theorem ulebEncode_small {n : Nat} (h : n < 128) : ulebEncode n = [n] := by
  unfold ulebEncode
  simp [h]

theorem ulebDecode_ulebEncode (n : Nat) (rest : List Nat) :
    ulebDecode (ulebEncode n ++ rest) = some (n, rest) := by
  induction n using Nat.strong_induction_on with
  | _ n ih =>
    by_cases h : n < 128
    · rw [ulebEncode_small h]
      show ulebDecode (n :: rest) = some (n, rest)
      unfold ulebDecode
      rw [if_pos h]
    · rw [ulebEncode, dif_neg h]
      show ulebDecode ((n % 128 + 128) :: (ulebEncode (n / 128) ++ rest)) = _
      unfold ulebDecode
      rw [if_neg (by omega), ih (n / 128) (Nat.div_lt_self (by omega) (by omega))]
      show some (n / 128 * 128 + (n % 128 + 128 - 128), rest) = some (n, rest)
      have : n / 128 * 128 + (n % 128 + 128 - 128) = n := by omega
      rw [this]

theorem bcsDeserKey_bcsSerKey (k : List Nat) :
    bcsDeserKey k.length (ulebEncode k.length ++ k) = .ok k := by
  unfold bcsDeserKey
  rw [ulebDecode_ulebEncode]
  simp [List.drop_length, List.take_length, tryFromBytes]

/-! ## File-system lemmas -/

theorem fsRead_fsWrite_same (fs : FSys) (p : String) (c : List Nat) :
    fsRead (fsWrite fs p c) p = some c := by
  induction fs with
  | nil => simp [fsWrite, fsRead]
  | cons e rest ih =>
    obtain ⟨q, d⟩ := e
    by_cases hq : q = p
    · subst hq
      simp [fsWrite, fsRead]
    · simp [fsWrite, fsRead, hq, ih]

theorem fsRead_fsWrite_other (fs : FSys) {p q : String} (c : List Nat)
    (h : p ≠ q) : fsRead (fsWrite fs q c) p = fsRead fs p := by
  have hqp : q ≠ p := Ne.symm h
  induction fs with
  | nil => simp [fsWrite, fsRead, hqp]
  | cons e rest ih =>
    obtain ⟨r, d⟩ := e
    by_cases hr : r = q
    · subst hr
      simp [fsWrite, fsRead, hqp]
    · simp [fsWrite, fsRead, hr, ih]

theorem ne_append_pub (s : String) : s ≠ s ++ ".pub" := by
  intro h
  have hlen := congrArg String.length h
  rw [String.length_append] at hlen
  have h4 : String.length ".pub" = 4 := rfl
  omega

theorem hexEncodeUpper_char_facts {k : List Nat} (hbytes : ∀ b ∈ k, b < 256) :
    ∀ c ∈ hexEncodeUpper k,
      c < 128 ∧ isWs c = false ∧ c ≠ 61 ∧ (b64Val c).isSome = true := by
  intro c hc
  obtain ⟨d, hd, rfl⟩ := mem_hexEncodeUpper hbytes hc
  obtain ⟨h1, h2, h3, h4, _⟩ := hexDigitUpper_facts d hd
  exact ⟨h1, h2, h3, h4⟩

/-! ## Claims -/

/-- C1: for every valid key and each encoding in Hex, BCS, Base64, the pure
decoding step of `load_key` applied to the bytes produced by `encode_key`
with the same encoding returns the original key byte-for-byte. -/
theorem claim_C1_encode_decode_roundtrip (k : List Nat) (enc : EncodingType)
    (nm : String) (hlen : k.length = keyLen) (hbytes : ∀ b ∈ k, b < 256) :
    ∃ data, encode_key bcsSerKey enc k nm = .ok data ∧
      decode_key keyLen enc data = some (.ok k) := by
  cases enc with
  | Hex =>
    refine ⟨hexEncodeUpper k, rfl, ?_⟩
    have hasc : ∀ c ∈ hexEncodeUpper k, c < 128 :=
      fun c hc => (hexEncodeUpper_char_facts hbytes c hc).1
    have hnws : ∀ c ∈ hexEncodeUpper k, isWs c = false :=
      fun c hc => (hexEncodeUpper_char_facts hbytes c hc).2.1
    simp only [decode_key, utf8Decode_ascii hasc]
    rw [strTrim_all_false hnws]
    simp [from_encoded_string, hexDecode_hexEncodeUpper hbytes, tryFromBytes, hlen]
  | BCS =>
    refine ⟨ulebEncode k.length ++ k, rfl, ?_⟩
    rw [hlen]
    have hdeser := bcsDeserKey_bcsSerKey k
    rw [hlen] at hdeser
    unfold decode_key
    rw [hdeser]
  | Base64 =>
    refine ⟨base64Encode k, rfl, ?_⟩
    have hasc : ∀ c ∈ base64Encode k, c < 128 :=
      fun c hc => (mem_base64Encode hbytes c hc).1
    have hnws : ∀ c ∈ base64Encode k, isWs c = false :=
      fun c hc => (mem_base64Encode hbytes c hc).2
    simp only [decode_key, utf8Decode_ascii hasc]
    rw [strTrim_all_false hnws, base64Decode_base64Encode hbytes]
    simp [tryFromBytes, hlen]

/-- Witness for C1 at the all-zero 32-byte key with Hex encoding. -/
theorem claim_C1_encode_decode_roundtrip_witness :
    (List.replicate 32 0).length = keyLen ∧ (∀ b ∈ List.replicate 32 0, b < 256) ∧
    (∃ data, encode_key bcsSerKey .Hex (List.replicate 32 0) "test" = .ok data ∧
      decode_key keyLen .Hex data = some (.ok (List.replicate 32 0))) :=
  ⟨by decide, by decide,
    claim_C1_encode_decode_roundtrip (List.replicate 32 0) .Hex "test"
      (by decide) (by decide)⟩

/-- C2: when generation targets an existing file with `force = false`
(`assume_yes = false`) and the confirmation answer is negative, `execute`
aborts with `AbortedError` before any bytes are written: the final file
system equals the initial one, whether the existing file is the primary
path or the derived `.pub` path, for every key type. -/
theorem claim_C2_abort_before_write (answers : Nat → Bool)
    (failPaths : List String) (conv : List Nat → Except String (List Nat))
    (pubOf : List Nat → List Nat) (key_type : KeyType) (key_file : String)
    (enc : EncodingType) (seed : List Nat) (w : World)
    (hans : answers w.promptCount = false) :
    (fsExists w.fs key_file = true →
      GenerateKey.execute answers failPaths conv pubOf key_type key_file enc
          false seed w =
        (.error .AbortedError, ⟨w.fs, w.promptCount + 1⟩)) ∧
    (fsExists w.fs key_file = false →
      fsExists w.fs (public_key_file key_file) = true →
      GenerateKey.execute answers failPaths conv pubOf key_type key_file enc
          false seed w =
        (.error .AbortedError, ⟨w.fs, w.promptCount + 1⟩)) := by
  constructor
  · intro hex
    unfold GenerateKey.execute check_key_file check_if_file_exists
    simp [hex, hans]
  · intro hex1 hex2
    unfold GenerateKey.execute check_key_file check_if_file_exists
    simp [hex1, hex2, hans]

/-- Witness for C2: a world whose file system already holds the primary
path, with the prompt oracle answering no. -/
theorem claim_C2_abort_before_write_witness :
    GenerateKey.execute (fun _ => false) [] .ok id .Ed25519 "key" .Hex false
        (List.replicate 32 0) ⟨[("key", [65])], 0⟩ =
      (.error .AbortedError, ⟨[("key", [65])], 1⟩) :=
  (claim_C2_abort_before_write (fun _ => false) [] .ok id .Ed25519 "key" .Hex
    (List.replicate 32 0) ⟨[("key", [65])], 0⟩ rfl).1 (by decide)

/-- C3: `check_if_file_exists` succeeds when the path does not exist;
succeeds without consulting the prompt when it exists and force
(`assume_yes`) is true; and when it exists and force is false, consults
the prompt once and returns `AbortedError` exactly when the answer is
negative. -/
theorem claim_C3_check_if_file_exists (answers : Nat → Bool) (file : String)
    (w : World) :
    (fsExists w.fs file = false →
      ∀ ay : Bool, check_if_file_exists answers file ay w = (.ok (), w)) ∧
    (fsExists w.fs file = true →
      check_if_file_exists answers file true w = (.ok (), w)) ∧
    (fsExists w.fs file = true →
      check_if_file_exists answers file false w =
        ((if answers w.promptCount then .ok () else .error .AbortedError),
          ⟨w.fs, w.promptCount + 1⟩)) := by
  refine ⟨?_, ?_, ?_⟩
  · intro h ay
    unfold check_if_file_exists
    simp [h]
  · intro h
    unfold check_if_file_exists
    simp
  · intro h
    unfold check_if_file_exists
    by_cases ha : answers w.promptCount <;> simp [h, ha]

/-- Witness for C3: a world holding the file, force off, prompt answering
no. -/
theorem claim_C3_check_if_file_exists_witness :
    check_if_file_exists (fun _ => false) "key" false ⟨[("key", [65])], 0⟩ =
      (.error .AbortedError, ⟨[("key", [65])], 1⟩) :=
  (claim_C3_check_if_file_exists (fun _ => false) "key"
    ⟨[("key", [65])], 0⟩).2.2 (by decide)

/-- C5: `execute` always starts from a fresh Ed25519 seed; once the guard
passes, with `key_type = X25519` the saved private key is the Ed25519-to-
X25519 conversion of the seed bytes (a conversion rejection surfacing as
`UnexpectedError`), and with `key_type = Ed25519` the seed is saved
directly — so an X25519 key is never produced independently of the seed. -/
theorem claim_C5_x25519_derived_from_seed (answers : Nat → Bool)
    (failPaths : List String) (conv : List Nat → Except String (List Nat))
    (pubOf : List Nat → List Nat) (key_file : String) (enc : EncodingType)
    (assume_yes : Bool) (seed : List Nat) (w : World)
    (hchk : (check_key_file answers key_file assume_yes w).1 = .ok ()) :
    (∀ e, conv seed = .error e →
      GenerateKey.execute answers failPaths conv pubOf .X25519 key_file enc
          assume_yes seed w =
        (.error (.UnexpectedError e),
          (check_key_file answers key_file assume_yes w).2)) ∧
    (∀ pk, conv seed = .ok pk →
      GenerateKey.execute answers failPaths conv pubOf .X25519 key_file enc
          assume_yes seed w =
        save_key failPaths pubOf key_file enc pk "x22519"
          (check_key_file answers key_file assume_yes w).2) ∧
    GenerateKey.execute answers failPaths conv pubOf .Ed25519 key_file enc
        assume_yes seed w =
      save_key failPaths pubOf key_file enc seed "ed22519"
        (check_key_file answers key_file assume_yes w).2 := by
  cases hck : check_key_file answers key_file assume_yes w with
  | mk r w' =>
    rw [hck] at hchk
    simp only at hchk
    subst hchk
    refine ⟨?_, ?_, ?_⟩
    · intro e hconv
      unfold GenerateKey.execute
      rw [hck, hconv]
    · intro pk hconv
      unfold GenerateKey.execute
      rw [hck, hconv]
    · unfold GenerateKey.execute
      rw [hck]

/-- Witness for C5: an empty file system (guard passes) and a conversion
that rejects the seed. -/
theorem claim_C5_x25519_derived_from_seed_witness :
    GenerateKey.execute (fun _ => false) [] (fun _ => .error "bad point") id
        .X25519 "key" .Hex false (List.replicate 32 0) ⟨[], 0⟩ =
      (.error (.UnexpectedError "bad point"), ⟨[], 0⟩) :=
  (claim_C5_x25519_derived_from_seed (fun _ => false) []
    (fun _ => .error "bad point") id "key" .Hex false (List.replicate 32 0)
    ⟨[], 0⟩ (by decide)).1 "bad point" rfl

/-- C4 counterexample: decoding the Hex encoding of the all-zero 32-byte
key through the Base64 path of `load_key` does not fail with a
`ParseError` (`UnableToParse`): the 64 upper-case hex chars are all in the
Base64 alphabet and decode to 48 bytes, so the failure is the key
constructor's, surfaced as `UnexpectedError`. -/
theorem claim_C4_counterexample :
    decode_key keyLen .Base64 (hexEncodeUpper (List.replicate 32 0)) =
      some (.error (.UnexpectedError "Failed to parse key WrongLengthError")) := by
  decide

/-- C4 (amended): for every valid key, decoding its Hex encoding through
the Base64 path of `load_key` fails — without panicking and without
returning wrong key bytes — but with `UnexpectedError` (the Base64 text
decodes to 48 bytes, which the key's length check rejects), not with a
`ParseError`. -/
theorem claim_C4_hex_rejected_by_base64 (k : List Nat)
    (hlen : k.length = keyLen) (hbytes : ∀ b ∈ k, b < 256) :
    decode_key keyLen .Base64 (hexEncodeUpper k) =
      some (.error (.UnexpectedError "Failed to parse key WrongLengthError")) := by
  have hfacts := hexEncodeUpper_char_facts hbytes
  have hasc : ∀ c ∈ hexEncodeUpper k, c < 128 := fun c hc => (hfacts c hc).1
  have hnws : ∀ c ∈ hexEncodeUpper k, isWs c = false :=
    fun c hc => (hfacts c hc).2.1
  have hnp : ∀ c ∈ hexEncodeUpper k, c ≠ 61 := fun c hc => (hfacts c hc).2.2.1
  have hval : ∀ c ∈ hexEncodeUpper k, (b64Val c).isSome = true :=
    fun c hc => (hfacts c hc).2.2.2
  have hlen64 : (hexEncodeUpper k).length = 64 := by
    rw [hexEncodeUpper_length, hlen]
    decide
  obtain ⟨bs, hbs, hbslen⟩ := b64Core_all_valid hval (by rw [hlen64])
  simp only [decode_key, utf8Decode_ascii hasc]
  rw [strTrim_all_false hnws]
  unfold base64Decode
  rw [stripPad_no_pad hnp, hbs]
  have hne : bs.length ≠ keyLen := by rw [hbslen, hlen64]; decide
  simp [tryFromBytes, hne]

/-- Witness for the amended C4 at the all-zero 32-byte key. -/
theorem claim_C4_hex_rejected_by_base64_witness :
    decode_key keyLen .Base64 (hexEncodeUpper (List.replicate 32 1)) =
      some (.error (.UnexpectedError "Failed to parse key WrongLengthError")) :=
  claim_C4_hex_rejected_by_base64 (List.replicate 32 1) (by decide) (by decide)

/-- C6: Hex encoding produces upper-case hexadecimal ASCII of even length
(two digits per key byte); Hex decoding trims surrounding whitespace and
parses the hex text back into the key bytes, failing with a `ParseError`
(`UnableToParse`) when the text is not valid hex or not the expected key
length. -/
theorem claim_C6_hex_contract (k : List Nat) (nm : String)
    (hlen : k.length = keyLen) (hbytes : ∀ b ∈ k, b < 256) :
    (encode_key bcsSerKey .Hex k nm = .ok (hexEncodeUpper k) ∧
      (hexEncodeUpper k).length = 2 * k.length ∧
      ∀ c ∈ hexEncodeUpper k, (48 ≤ c ∧ c ≤ 57) ∨ (65 ≤ c ∧ c ≤ 70)) ∧
    (∀ ws1 ws2 : List Nat,
      (∀ c ∈ ws1, isWs c = true ∧ c < 128) →
      (∀ c ∈ ws2, isWs c = true ∧ c < 128) →
      decode_key keyLen .Hex (ws1 ++ hexEncodeUpper k ++ ws2) =
        some (.ok k)) ∧
    (∀ s : List Nat, (∀ b ∈ s, b < 128) → hexDecode (strTrim s) = none →
      decode_key keyLen .Hex s =
        some (.error (.UnableToParse "Key" "DeserializationError"))) ∧
    (∀ s bs : List Nat, (∀ b ∈ s, b < 128) →
      hexDecode (strTrim s) = some bs → bs.length ≠ keyLen →
      decode_key keyLen .Hex s =
        some (.error (.UnableToParse "Key" "WrongLengthError"))) := by
  have hfacts := hexEncodeUpper_char_facts hbytes
  refine ⟨⟨rfl, hexEncodeUpper_length k, ?_⟩, ?_, ?_, ?_⟩
  · intro c hc
    obtain ⟨d, hd, rfl⟩ := mem_hexEncodeUpper hbytes hc
    exact (hexDigitUpper_facts d hd).2.2.2.2
  · intro ws1 ws2 hws1 hws2
    have hasc : ∀ b ∈ ws1 ++ hexEncodeUpper k ++ ws2, b < 128 := by
      intro b hb
      simp only [List.mem_append] at hb
      rcases hb with (hb | hb) | hb
      · exact (hws1 b hb).2
      · exact (hfacts b hb).1
      · exact (hws2 b hb).2
    simp only [decode_key, utf8Decode_ascii hasc]
    rw [strTrim_surround (fun c hc => (hws1 c hc).1) (fun c hc => (hws2 c hc).1)
      (fun c hc => (hfacts c hc).2.1)
      (by
        intro hnil
        have hlen2 := hexEncodeUpper_length k
        rw [hnil, hlen] at hlen2
        simp [keyLen] at hlen2)]
    simp [from_encoded_string, hexDecode_hexEncodeUpper hbytes, tryFromBytes, hlen]
  · intro s hasc hnone
    simp only [decode_key, utf8Decode_ascii hasc]
    simp [from_encoded_string, hnone]
  · intro s bs hasc hsome hne
    simp only [decode_key, utf8Decode_ascii hasc]
    simp [from_encoded_string, hsome, tryFromBytes, hne]

/-- Witness for C6: round trip through whitespace-padded hex text of the
all-zero key. -/
theorem claim_C6_hex_contract_witness :
    decode_key keyLen .Hex ([32] ++ hexEncodeUpper (List.replicate 32 0) ++ [10]) =
      some (.ok (List.replicate 32 0)) :=
  (claim_C6_hex_contract (List.replicate 32 0) "k" (by decide) (by decide)).2.1
    [32] [10] (by decide) (by decide)

/-- C7: the public key is guarded and written at exactly the primary path
with the fixed ".pub" suffix appended; `check_key_file` guards both paths
(the derived path alone can abort the run) and `save_key` writes exactly
the two paths together, touching nothing else. -/
theorem claim_C7_paths_together (key_file : String) (enc : EncodingType)
    (key : List Nat) (nm : String) (pubOf : List Nat → List Nat)
    (answers : Nat → Bool) (w : World) (epriv epub : List Nat)
    (hpriv : encode_key bcsSerKey enc key nm = .ok epriv)
    (hpub : encode_key bcsSerKey enc (pubOf key) nm = .ok epub) :
    public_key_file key_file = key_file ++ ".pub" ∧
    (fsExists w.fs key_file = false →
      fsExists w.fs (key_file ++ ".pub") = true →
      answers w.promptCount = false →
      check_key_file answers key_file false w =
        (.error .AbortedError, ⟨w.fs, w.promptCount + 1⟩)) ∧
    save_key [] pubOf key_file enc key nm w =
      (.ok (), ⟨fsWrite (fsWrite w.fs key_file epriv) (key_file ++ ".pub") epub,
        w.promptCount⟩) ∧
    fsRead (fsWrite (fsWrite w.fs key_file epriv) (key_file ++ ".pub") epub)
        key_file = some epriv ∧
    fsRead (fsWrite (fsWrite w.fs key_file epriv) (key_file ++ ".pub") epub)
        (key_file ++ ".pub") = some epub ∧
    ∀ p, p ≠ key_file → p ≠ key_file ++ ".pub" →
      fsRead (fsWrite (fsWrite w.fs key_file epriv) (key_file ++ ".pub") epub) p =
        fsRead w.fs p := by
  refine ⟨rfl, ?_, ?_, ?_, fsRead_fsWrite_same _ _ _, ?_⟩
  · intro h1 h2 hans
    unfold check_key_file check_if_file_exists
    simp [h1, h2, hans, public_key_file, append_file_extension]
  · unfold save_key write_to_file
    rw [hpriv, hpub]
    simp [public_key_file, append_file_extension]
  · rw [fsRead_fsWrite_other _ _ (ne_append_pub key_file), fsRead_fsWrite_same]
  · intro p hp1 hp2
    rw [fsRead_fsWrite_other _ _ hp2, fsRead_fsWrite_other _ _ hp1]

/-- Witness for C7: saving a one-byte key pair into an empty world. -/
theorem claim_C7_paths_together_witness :
    save_key [] id "key" .Hex [7] "nm" ⟨[], 0⟩ =
      (.ok (), ⟨fsWrite (fsWrite [] "key" (hexEncodeUpper [7]))
        ("key" ++ ".pub") (hexEncodeUpper [7]), 0⟩) :=
  (claim_C7_paths_together "key" .Hex [7] "nm" id (fun _ => false) ⟨[], 0⟩
    (hexEncodeUpper [7]) (hexEncodeUpper [7]) rfl rfl).2.2.1

/-- C8: when the private-key write succeeds and the public-key write
fails, `save_key` returns an `IOError` and the private-key file keeps its
newly written content — no rollback or cleanup happens. -/
theorem claim_C8_no_rollback (key_file : String) (enc : EncodingType)
    (key : List Nat) (nm : String) (pubOf : List Nat → List Nat) (w : World)
    (epriv epub : List Nat)
    (hpriv : encode_key bcsSerKey enc key nm = .ok epriv)
    (hpub : encode_key bcsSerKey enc (pubOf key) nm = .ok epub) :
    save_key [public_key_file key_file] pubOf key_file enc key nm w =
      (.error (.IOErr nm "io error"),
        ⟨fsWrite w.fs key_file epriv, w.promptCount⟩) ∧
    fsRead (fsWrite w.fs key_file epriv) key_file = some epriv := by
  constructor
  · unfold save_key write_to_file
    rw [hpriv, hpub]
    have hne : ¬key_file = public_key_file key_file := ne_append_pub key_file
    simp [hne]
  · exact fsRead_fsWrite_same w.fs key_file epriv

/-- Witness for C8: a one-byte key whose public write path is the failing
one. -/
theorem claim_C8_no_rollback_witness :
    save_key [public_key_file "key"] id "key" .Hex [7] "nm" ⟨[], 0⟩ =
      (.error (.IOErr "nm" "io error"),
        ⟨fsWrite [] "key" (hexEncodeUpper [7]), 0⟩) :=
  (claim_C8_no_rollback "key" .Hex [7] "nm" id ⟨[], 0⟩ (hexEncodeUpper [7])
    (hexEncodeUpper [7]) rfl rfl).1

/-- C9: the byte string `[255]` is not valid UTF-8, and the decode step of
`load_key` with Hex or Base64 encodings panics on it (the modelled
`String::from_utf8(..).unwrap()`, the `none` result) instead of returning
a `ParseError` or an I/O-level error. -/
theorem claim_C9_invalid_utf8_panics :
    utf8Decode [255] = none ∧
    decode_key keyLen .Hex [255] = none ∧
    decode_key keyLen .Base64 [255] = none :=
  ⟨rfl, rfl, rfl⟩

/-- C10: for every key, key name and BCS serializer behavior, the Hex and
Base64 branches of `encode_key` always return `Ok`; only the BCS branch
can fail, and any error it returns is the BCS `SerializationError`
carrying the given key name. -/
theorem claim_C10_encode_error_shape
    (bcsSer : List Nat → Except String (List Nat)) (k : List Nat)
    (nm : String) :
    encode_key bcsSer .Hex k nm = .ok (hexEncodeUpper k) ∧
    encode_key bcsSer .Base64 k nm = .ok (base64Encode k) ∧
    (∀ out, bcsSer k = .ok out → encode_key bcsSer .BCS k nm = .ok out) ∧
    (∀ e, bcsSer k = .error e →
      encode_key bcsSer .BCS k nm = .error (.BCSErr nm e)) ∧
    (∀ err, encode_key bcsSer .BCS k nm = .error err →
      ∃ e, err = .BCSErr nm e) := by
  refine ⟨rfl, rfl, ?_, ?_, ?_⟩
  · intro out h
    unfold encode_key
    rw [h]
  · intro e h
    unfold encode_key
    rw [h]
  · intro err h
    unfold encode_key at h
    cases hb : bcsSer k with
    | ok out => rw [hb] at h; cases h
    | error e => rw [hb] at h; exact ⟨e, (Except.error.inj h).symm⟩

/-- Witness for C10: a serializer that rejects everything makes the BCS
branch fail with the key name attached. -/
theorem claim_C10_encode_error_shape_witness :
    encode_key (fun _ => .error "boom") .BCS [1, 2] "k" =
      .error (.BCSErr "k" "boom") :=
  (claim_C10_encode_error_shape (fun _ => .error "boom") [1, 2] "k").2.2.2.1
    "boom" rfl

end KeyOp
